import Mathlib

/-!
Verification of `ExpandGlobPattern` (src/fit_glob.cpp): a shallow embedding of
`duckdb::ExpandGlobPattern` and proofs of its contract.

Representation:

* A `std::string` is a Lean `String`, one `Char` per byte.  Every byte value is a
  valid `Char`, comparison of `Char`s is comparison of their numeric values, so the
  lexicographic order of `std::string::operator<` (unsigned bytes) is the
  lexicographic order on `String.data`.
* `string::npos` is `none`.
* The operating system is a record of the functions the code calls
  (`opendir`/`readdir`, `stat`, `fnmatch` on POSIX; `FindFirstFileA`/`FindNextFileA`
  on Windows).  Nothing is assumed about them: every theorem quantifies over all
  such records unless it says otherwise.
* The two `#ifdef` branches are the two constructors of `Platform`.
* Besides the returned vector, the embedding records the sequence of
  operating-system calls the function makes (`Run.calls`), so that "no directory
  is consulted" is a statement about the code and not about its result only.
-/

namespace duckdb

/-! ## `std::string` operations used by the source -/

/-- Index of the first occurrence of `c` in a character list, if any. -/
def findChars (c : Char) : List Char → Option Nat
  | [] => none
  | x :: xs => if x = c then some 0 else (findChars c xs).map (· + 1)

/-- The call `s.find(c)`: position of the first `c`, `none` for `string::npos`. -/
def find (s : String) (c : Char) : Option Nat :=
  findChars c s.data

/-- Index of the last character of the list that belongs to `cs`, if any. -/
def findLastOfChars (cs : List Char) : List Char → Option Nat
  | [] => none
  | x :: xs =>
    match findLastOfChars cs xs with
    | some i => some (i + 1)
    | none => if x ∈ cs then some 0 else none

/-- The call `s.find_last_of(cs)`: position of the last character of `s` that is
one of `cs`, `none` for `string::npos`. -/
def find_last_of (s : String) (cs : String) : Option Nat :=
  findLastOfChars cs.data s.data

/-- The call `s.substr(pos, n)`.  The source only makes it with `pos ≤ s.size()`,
where it does not throw (`find_last_of_lt_size`). -/
def substr (s : String) (pos n : Nat) : String :=
  ⟨(s.data.drop pos).take n⟩

/-- The call `s.substr(pos)`.  The source only makes it with `pos ≤ s.size()`,
where it does not throw (`find_last_of_lt_size`). -/
def substrFrom (s : String) (pos : Nat) : String :=
  ⟨s.data.drop pos⟩

/-- The value of `s.c_str()` as a C function sees it: the bytes before the first
NUL. -/
def c_str (s : String) : String :=
  ⟨s.data.takeWhile (fun c => c ≠ '\x00')⟩

/-- The loop `for (auto &c : s) if (c == a) c = b;`. -/
def replaceChar (a b : Char) (s : String) : String :=
  ⟨s.data.map (fun c => if c = a then b else c)⟩

/-- The call `std::sort(files.begin(), files.end())` on a `vector<string>`: the sorted
rearrangement with respect to `std::string::operator<`, the lexicographic order of
the bytes.  Strings that compare equivalent are equal, so the sorted rearrangement
is unique and any sorting algorithm computes it (`std_sort_unique`). -/
def std_sort (files : List String) : List String :=
  files.insertionSort (fun a b => a.data ≤ b.data)

/-! ## The operating system -/

/-- The operating-system calls made by the function, in the order it makes them. -/
inductive Call
  | opendir (path : String)
  | readdir
  | stat (path : String)
  | closedir
  | FindFirstFileA (path : String)
  | FindNextFileA
  | FindClose
  deriving DecidableEq, Repr

/-- The POSIX functions used by the `#else` branch.

* `opendir path` is `none` when `opendir` returns `NULL`; otherwise it is the
  sequence of `d_name`s that successive `readdir` calls return before `nullptr`.
* `stat path` is `none` when `stat` fails, otherwise the `st_mode` it stores.
* `fnmatch pat name` is the return value of `fnmatch(pat, name, 0)`. -/
structure Posix where
  opendir : String → Option (List String)
  stat : String → Option Nat
  fnmatch : String → String → Int

/-- The file-type mask `S_IFMT` of `<sys/stat.h>` (value on Linux and macOS). -/
def S_IFMT : Nat := 0o170000

/-- The file type `S_IFREG` of `<sys/stat.h>` (value on Linux and macOS). -/
def S_IFREG : Nat := 0o100000

/-- The file type `S_IFDIR` of `<sys/stat.h>` (value on Linux and macOS). -/
def S_IFDIR : Nat := 0o040000

/-- The test `S_ISREG(m)` of `<sys/stat.h>`. -/
def S_ISREG (m : Nat) : Bool :=
  (m &&& S_IFMT) == S_IFREG

/-- The test `S_ISDIR(m)` of `<sys/stat.h>`. -/
def S_ISDIR (m : Nat) : Bool :=
  (m &&& S_IFMT) == S_IFDIR

/-- The fields of `WIN32_FIND_DATAA` that the source reads. -/
structure WIN32_FIND_DATAA where
  cFileName : String
  dwFileAttributes : Nat
  deriving DecidableEq, Repr

/-- The attribute bit `FILE_ATTRIBUTE_DIRECTORY` of `<windows.h>`. -/
def FILE_ATTRIBUTE_DIRECTORY : Nat := 0x10

/-- The Windows functions used by the `#ifdef _WIN32` branch.

`FindFirstFileA path` is `none` for `INVALID_HANDLE_VALUE`; otherwise it is the
find data stored by `FindFirstFileA` and the find data stored by the successive
`FindNextFileA` calls that return non-zero. -/
structure Win32 where
  FindFirstFileA : String → Option (WIN32_FIND_DATAA × List WIN32_FIND_DATAA)

/-- The build target: which branch of the `#ifdef _WIN32` is compiled, with the
operating system it runs on. -/
inductive Platform
  | win32 (os : Win32)
  | posix (os : Posix)

/-! ## The function -/

/-- The state of a call: the vector `files` and the operating-system calls made
so far. -/
structure Run where
  files : List String
  calls : List Call
  deriving DecidableEq, Repr

/-- Lines 80-90: `last_slash`, `dir_path` and `filename_pattern` of the POSIX
branch, as the pair `(dir_path, filename_pattern)`. -/
def splitPosix (pattern : String) : String × String :=
  match find_last_of pattern "/" with
  | some last_slash => (substr pattern 0 last_slash, substrFrom pattern (last_slash + 1))
  | none => (".", pattern)

/-- Lines 109-114: `full_path` of the POSIX branch. -/
def fullPathPosix (dir_path d_name : String) : String :=
  if dir_path = "." then d_name else dir_path ++ "/" ++ d_name

/-- Lines 100-122: the `readdir` loop, run on the `d_name`s that `readdir` is going
to return. -/
def readLoop (os : Posix) (dir_path filename_pattern : String) :
    List String → Run → Run
  | [], r => ⟨r.files, r.calls ++ [Call.readdir]⟩
  | d_name :: rest, r =>
    let r1 : Run := ⟨r.files, r.calls ++ [Call.readdir]⟩
    if d_name = "." ∨ d_name = ".." then
      readLoop os dir_path filename_pattern rest r1
    else if os.fnmatch (c_str filename_pattern) d_name = 0 then
      let full_path := fullPathPosix dir_path d_name
      let r2 : Run := ⟨r1.files, r1.calls ++ [Call.stat (c_str full_path)]⟩
      match os.stat (c_str full_path) with
      | some st_mode =>
        if S_ISREG st_mode then
          readLoop os dir_path filename_pattern rest ⟨r2.files ++ [full_path], r2.calls⟩
        else
          readLoop os dir_path filename_pattern rest r2
      | none => readLoop os dir_path filename_pattern rest r2
    else
      readLoop os dir_path filename_pattern rest r1

/-- Lines 28-38: `last_slash`, `dir_path` and `filename_pattern` of the Windows
branch, before the separators of `dir_path` are converted. -/
def splitWin32 (pattern : String) : String × String :=
  match find_last_of pattern "/\\" with
  | some last_slash => (substr pattern 0 last_slash, substrFrom pattern (last_slash + 1))
  | none => (".", pattern)

/-- Lines 61-71: `full_path` of the Windows branch, after the conversion back to
forward slashes. -/
def fullPathWin32 (dir_path cFileName : String) : String :=
  replaceChar '\\' '/' (if dir_path = "." then cFileName else dir_path ++ "\\" ++ cFileName)

/-- Lines 58-74: the `do ... while (FindNextFileA(...) != 0)` loop, run on the
current find data and the find data that `FindNextFileA` is going to store. -/
def findLoop (dir_path : String) : WIN32_FIND_DATAA → List WIN32_FIND_DATAA → Run → Run
  | find_data, rest, r =>
    let r1 : Run :=
      if find_data.dwFileAttributes &&& FILE_ATTRIBUTE_DIRECTORY = 0 then
        ⟨r.files ++ [fullPathWin32 dir_path find_data.cFileName], r.calls⟩
      else r
    let r2 : Run := ⟨r1.files, r1.calls ++ [Call.FindNextFileA]⟩
    match rest with
    | [] => r2
    | next :: rest1 => findLoop dir_path next rest1 r2

/-- Lines 40-44: `dir_path` of the Windows branch after the conversion to Windows
path separators. -/
def dirPathWin32 (pattern : String) : String :=
  replaceChar '/' '\\' (splitWin32 pattern).1

/-- Lines 46-52: `search_path` of the Windows branch. -/
def searchPathWin32 (pattern : String) : String :=
  if dirPathWin32 pattern = "." then (splitWin32 pattern).2
  else dirPathWin32 pattern ++ "\\" ++ (splitWin32 pattern).2

/-- Lines 16-131: `ExpandGlobPattern`, with the operating-system calls it makes. -/
def ExpandGlobPatternRun (target : Platform) (pattern : String) : Run :=
  if find pattern '*' = none ∧ find pattern '?' = none ∧ find pattern '[' = none then
    ⟨[pattern], []⟩
  else
    match target with
    | Platform.win32 os =>
      let dir_path := dirPathWin32 pattern
      let search_path := searchPathWin32 pattern
      let r0 : Run := ⟨[], [Call.FindFirstFileA (c_str search_path)]⟩
      match os.FindFirstFileA (c_str search_path) with
      | some (find_data, rest) =>
        let r := findLoop dir_path find_data rest r0
        ⟨std_sort r.files, r.calls ++ [Call.FindClose]⟩
      | none => ⟨std_sort r0.files, r0.calls⟩
    | Platform.posix os =>
      let dir_path := (splitPosix pattern).1
      let filename_pattern := (splitPosix pattern).2
      let r0 : Run := ⟨[], [Call.opendir (c_str dir_path)]⟩
      match os.opendir (c_str dir_path) with
      | none => r0
      | some entries =>
        let r := readLoop os dir_path filename_pattern entries r0
        ⟨std_sort r.files, r.calls ++ [Call.closedir]⟩

/-- The vector returned by `ExpandGlobPattern(pattern)`. -/
def ExpandGlobPattern (target : Platform) (pattern : String) : List String :=
  (ExpandGlobPatternRun target pattern).files

/-! ## A concrete matcher and concrete file systems for the scenarios -/

/-- Splits the text after an opening `[` into the body of the bracket expression
and the text after the closing `]`; a `]` in first position is a member of the
class.  `none` when the bracket expression is not terminated. -/
def bracketBody (first : Bool) : List Char → Option (List Char × List Char)
  | [] => none
  | c :: cs =>
    if c = ']' ∧ first = false then some ([], cs)
    else (bracketBody false cs).map (fun br => (c :: br.1, br.2))

/-- Membership of `c` in the body of a bracket expression: single characters and
ranges `a-b`. -/
def inBracket (c : Char) : List Char → Bool
  | a :: '-' :: b :: rest =>
    (decide (a.toNat ≤ c.toNat) && decide (c.toNat ≤ b.toNat)) || inBracket c rest
  | a :: rest => a == c || inBracket c rest
  | [] => false

/-- One step of shell-style matching of a whole name against a pattern, the
matching of what remains being left to `more`: `*` matches any run of characters
including none, `?` matches exactly one character, `[...]` matches one character
of a class (`[!...]` one character outside it), a backslash quotes the next
character, an unterminated `[` is an ordinary character. -/
def shellMatchStep (more : List Char → List Char → Bool) :
    List Char → List Char → Bool
  | [], s => s.isEmpty
  | '*' :: ps, [] => more ps []
  | '*' :: ps, c :: cs => more ps (c :: cs) || more ('*' :: ps) cs
  | _ :: _, [] => false
  | '?' :: ps, _ :: cs => more ps cs
  | '[' :: ps, c :: cs =>
    let negated := ps.head? = some '!' ∨ ps.head? = some '^'
    match bracketBody true (if negated then ps.drop 1 else ps) with
    | some (body, rest) => (inBracket c body != decide negated) && more rest cs
    | none => c == '[' && more ps cs
  | '\\' :: p :: ps, c :: cs => p == c && more ps cs
  | p :: ps, c :: cs => p == c && more ps cs

/-- Shell-style matching with a recursion budget. -/
def shellMatchFuel : Nat → List Char → List Char → Bool
  | 0, _, _ => false
  | n + 1, p, s => shellMatchStep (shellMatchFuel n) p s

/-- Modelled from the spec: `fnmatch(pattern, name, 0)` of the C library, which
is not part of the repository, with the shell-style semantics of section 4.3 of
the spec.  Returns `0` for a match and `FNM_NOMATCH = 1` otherwise.  Every step
consumes a character of the pattern or of the name, so the budget given here never
runs out (`shellMatchFuel_stable`). -/
def fnmatch (pattern name : String) : Int :=
  if shellMatchFuel (pattern.data.length + name.data.length + 1) pattern.data name.data
  then 0 else 1

/-- Scenario A of the spec: `data/` holds the regular files `a.csv`, `b.csv`,
`notes.txt` and the sub-directory `archive/`. -/
def scenarioA : Posix where
  opendir := fun path =>
    if path = "data" then some [".", "..", "notes.txt", "b.csv", "archive", "a.csv"]
    else if path = "data/archive" then some [".", ".."]
    else none
  stat := fun path =>
    if path = "data" ∨ path = "data/archive" then some 0o040755
    else if path = "data/a.csv" ∨ path = "data/b.csv" ∨ path = "data/notes.txt" then
      some 0o100644
    else none
  fnmatch := fnmatch

/-- Scenario B of the spec: a file system without `missing_dir/` (the current
directory is empty). -/
def scenarioB : Posix where
  opendir := fun path => if path = "." then some [".", ".."] else none
  stat := fun path => if path = "." then some 0o040755 else none
  fnmatch := fnmatch

/-- Scenario D of the spec: `logs/` holds `2021.log`, `2022.log`, `20210.log`. -/
def scenarioD : Posix where
  opendir := fun path =>
    if path = "logs" then some [".", "..", "20210.log", "2022.log", "2021.log"] else none
  stat := fun path =>
    if path = "logs" then some 0o040755
    else if path = "logs/2021.log" ∨ path = "logs/2022.log" ∨ path = "logs/20210.log" then
      some 0o100644
    else none
  fnmatch := fnmatch

/-- Scenario E of the spec: the current directory holds the hidden file `.env`,
the file `main.fit` and the directory `.git`. -/
def scenarioE : Posix where
  opendir := fun path =>
    if path = "." then some [".", "..", "main.fit", ".git", ".env"] else none
  stat := fun path =>
    if path = "." ∨ path = ".git" then some 0o040755
    else if path = ".env" ∨ path = "main.fit" then some 0o100644
    else none
  fnmatch := fnmatch

/-- Scenario A with the entries of `data/` enumerated in another order. -/
def scenarioAReordered : Posix where
  opendir := fun path =>
    if path = "data" then some ["a.csv", "archive", ".", "b.csv", "notes.txt", ".."]
    else if path = "data/archive" then some ["..", "."]
    else none
  stat := scenarioA.stat
  fnmatch := scenarioA.fnmatch

/-- A Windows directory `dir\` holding the file `a.fit`, the file `b.fit` and the
sub-directory `old.fit`: the native enumeration does the matching. -/
def scenarioWin : Win32 where
  FindFirstFileA := fun path =>
    if path = "dir\\*.fit" then
      some (⟨"b.fit", 0x20⟩, [⟨"old.fit", 0x10⟩, ⟨"a.fit", 0x20⟩])
    else none

/-- A Windows file system whose current directory holds the file `top.fit` and
the sub-directory `sub\\` with the file `a.fit`; `sub` is reached both as `sub`
and as `.\\sub`. -/
def scenarioWinSub : Win32 where
  FindFirstFileA := fun path =>
    if path = "sub\\*.fit" ∨ path = ".\\sub\\*.fit" then some (⟨"a.fit", 0x20⟩, [])
    else if path = "*.fit" then some (⟨"top.fit", 0x20⟩, [])
    else none

/-! ## Auxiliary definitions for the proofs -/

/-- What one iteration of the `readdir` loop appends to `files` for the entry
`d_name`: its full path when the entry is not `.` or `..`, matches, and `stat`
reports a regular file. -/
def selectPosix (os : Posix) (dir_path filename_pattern d_name : String) : Option String :=
  if d_name = "." ∨ d_name = ".." then none
  else if os.fnmatch (c_str filename_pattern) d_name = 0 then
    match os.stat (c_str (fullPathPosix dir_path d_name)) with
    | some st_mode => if S_ISREG st_mode then some (fullPathPosix dir_path d_name) else none
    | none => none
  else none

/-- What one iteration of the `FindNextFileA` loop appends to `files` for
`find_data`. -/
def selectWin32 (dir_path : String) (find_data : WIN32_FIND_DATAA) : Option String :=
  if find_data.dwFileAttributes &&& FILE_ATTRIBUTE_DIRECTORY = 0 then
    some (fullPathWin32 dir_path find_data.cFileName)
  else none

/-- Two enumerations of a directory with the same outcome and the same entries,
possibly in a different order. -/
def SameListing {α : Type} (a b : Option (List α)) : Prop :=
  match a, b with
  | some l1, some l2 => l1.Perm l2
  | none, none => True
  | _, _ => False

/-- Two targets of the same platform whose file systems have the same contents:
the same status for every path, the same matcher, and for every directory the
same entries, possibly enumerated in a different order. -/
def SameContents : Platform → Platform → Prop
  | Platform.posix os1, Platform.posix os2 =>
    os1.stat = os2.stat ∧ os1.fnmatch = os2.fnmatch ∧
      ∀ path, SameListing (os1.opendir path) (os2.opendir path)
  | Platform.win32 os1, Platform.win32 os2 =>
    ∀ path, SameListing ((os1.FindFirstFileA path).map (fun d => d.1 :: d.2))
      ((os2.FindFirstFileA path).map (fun d => d.1 :: d.2))
  | _, _ => False

/-- The wildcard test of lines 19-20, in the words of the spec: the pattern
contains at least one of `*`, `?`, `[`. -/
def HasWildcard (pattern : String) : Prop :=
  '*' ∈ pattern.data ∨ '?' ∈ pattern.data ∨ '[' ∈ pattern.data

instance (pattern : String) : Decidable (HasWildcard pattern) := by
  unfold HasWildcard
  infer_instance

/-! ## Lemmas on the string operations -/

theorem findChars_eq_none_iff (c : Char) (l : List Char) :
    findChars c l = none ↔ c ∉ l := by
  induction l with
  | nil => simp [findChars]
  | cons x xs ih =>
    by_cases h : x = c
    · simp [findChars, h]
    · have h2 : ¬ c = x := fun e => h e.symm
      simp [findChars, h, h2, ih]

theorem find_eq_none_iff (s : String) (c : Char) : find s c = none ↔ c ∉ s.data :=
  findChars_eq_none_iff c s.data

theorem literal_test_iff (pattern : String) :
    (find pattern '*' = none ∧ find pattern '?' = none ∧ find pattern '[' = none) ↔
      ¬ HasWildcard pattern := by
  simp only [find_eq_none_iff, HasWildcard, not_or]

theorem findLastOfChars_eq_none_iff (cs l : List Char) :
    findLastOfChars cs l = none ↔ ∀ x ∈ l, x ∉ cs := by
  induction l with
  | nil => simp [findLastOfChars]
  | cons x xs ih =>
    cases hrec : findLastOfChars cs xs with
    | none =>
      have hxs := ih.mp hrec
      by_cases hx : x ∈ cs
      · simp [findLastOfChars, hrec, hx]
      · simp only [findLastOfChars, hrec, hx, if_false, true_iff]
        intro y hy
        rcases List.mem_cons.mp hy with e | e
        · exact e ▸ hx
        · exact hxs y e
    | some i =>
      simp only [findLastOfChars, hrec]
      refine ⟨fun h => Option.noConfusion h, fun hall => ?_⟩
      have : findLastOfChars cs xs = none :=
        ih.mpr (fun y hy => hall y (List.mem_cons_of_mem _ hy))
      rw [hrec] at this
      exact Option.noConfusion this

theorem findLastOfChars_append (cs d f : List Char) (c : Char) (hc : c ∈ cs)
    (hf : ∀ x ∈ f, x ∉ cs) : findLastOfChars cs (d ++ c :: f) = some d.length := by
  have hnone : findLastOfChars cs f = none := (findLastOfChars_eq_none_iff cs f).mpr hf
  induction d with
  | nil => simp [findLastOfChars, hnone, hc]
  | cons x xs ih => simp [findLastOfChars, ih]

theorem findLastOfChars_some (cs : List Char) :
    ∀ (l : List Char) (i : Nat), findLastOfChars cs l = some i →
      ∃ c, c ∈ cs ∧ l = l.take i ++ c :: l.drop (i + 1) ∧ ∀ x ∈ l.drop (i + 1), x ∉ cs := by
  intro l
  induction l with
  | nil => intro i h; simp [findLastOfChars] at h
  | cons x xs ih =>
    intro i h
    cases hrec : findLastOfChars cs xs with
    | none =>
      have hxs := (findLastOfChars_eq_none_iff cs xs).mp hrec
      by_cases hx : x ∈ cs
      · simp only [findLastOfChars, hrec, hx, if_true, Option.some.injEq] at h
        subst h
        exact ⟨x, hx, by simp, by simpa using hxs⟩
      · simp [findLastOfChars, hrec, hx] at h
    | some j =>
      simp only [findLastOfChars, hrec, Option.some.injEq] at h
      subst h
      obtain ⟨c, hc, hl, hrest⟩ := ih j hrec
      refine ⟨c, hc, ?_, by simpa using hrest⟩
      simp only [List.take_succ_cons, List.drop_succ_cons, List.cons_append]
      exact congrArg (x :: ·) hl

/-- The position returned by `find_last_of` is inside the string, so the two
`substr` calls of the source are within bounds and do not throw. -/
theorem find_last_of_lt_size (s cs : String) (i : Nat) (h : find_last_of s cs = some i) :
    i + 1 ≤ s.data.length := by
  obtain ⟨c, -, hl, -⟩ := findLastOfChars_some cs.data s.data i h
  have hlen := congrArg List.length hl
  simp only [List.length_append, List.length_cons, List.length_take, List.length_drop] at hlen
  omega

/-! ## The recursion budget of the concrete matcher is sufficient -/

theorem bracketBody_length : ∀ (l : List Char) (first : Bool) (body rest : List Char),
    bracketBody first l = some (body, rest) → rest.length < l.length := by
  intro l
  induction l with
  | nil => intro first body rest h; simp [bracketBody] at h
  | cons c cs ih =>
    intro first body rest h
    unfold bracketBody at h
    split at h
    · have h2 : body = [] ∧ rest = cs := by
        simp only [Option.some.injEq, Prod.mk.injEq] at h
        exact ⟨h.1.symm, h.2.symm⟩
      rw [h2.2]
      simp
    · cases hrec : bracketBody false cs with
      | none => simp [hrec] at h
      | some br =>
        obtain ⟨b, r⟩ := br
        simp only [hrec, Option.map_some', Option.some.injEq, Prod.mk.injEq] at h
        have := ih false b r hrec
        rw [← h.2]
        simp only [List.length_cons]
        omega

theorem shellMatchStep_congr (f g : List Char → List Char → Bool) (p s : List Char)
    (h : ∀ p1 s1, p1.length + s1.length < p.length + s.length → f p1 s1 = g p1 s1) :
    shellMatchStep f p s = shellMatchStep g p s := by
  unfold shellMatchStep
  split
  · rfl
  · rw [h _ _ (by simp)]
  · rw [h _ _ (by simp), h _ _ (by simp)]
  · rfl
  · rw [h _ _ (by simp; omega)]
  · rename_i ps c cs
    simp only
    split
    · rename_i body rest hbody
      have hlen := bracketBody_length _ _ _ _ hbody
      have hdrop : (if ps.head? = some '!' ∨ ps.head? = some '^' then List.drop 1 ps
          else ps).length ≤ ps.length := by
        split
        · simp
        · exact Nat.le_refl _
      rw [h _ _ (by simp only [List.length_cons]; omega)]
    · rw [h _ _ (by simp; omega)]
  · rw [h _ _ (by simp; omega)]
  · rw [h _ _ (by simp; omega)]

/-- Any two budgets larger than the combined length of pattern and name give the
same answer: the budget used by `fnmatch` is never exhausted. -/
theorem shellMatchFuel_stable : ∀ (n m : Nat) (p s : List Char),
    p.length + s.length < n → p.length + s.length < m →
      shellMatchFuel n p s = shellMatchFuel m p s := by
  intro n
  induction n with
  | zero => intro m p s h; omega
  | succ n ih =>
    intro m p s hn hm
    cases m with
    | zero => omega
    | succ m =>
      unfold shellMatchFuel
      exact shellMatchStep_congr _ _ p s
        (fun p1 s1 hlt => ih m p1 s1 (by omega) (by omega))

/-! ## Lemmas on `std_sort` -/

theorem dataLe_iff (a b : String) : a.data ≤ b.data ↔ a ≤ b :=
  String.le_iff_toList_le.symm

theorem std_sort_eq (l : List String) : std_sort l = l.insertionSort (· ≤ ·) := by
  induction l with
  | nil => rfl
  | cons x xs ih =>
    unfold std_sort at ih ⊢
    simp only [List.insertionSort, ih]
    generalize List.insertionSort (· ≤ ·) xs = ys
    induction ys with
    | nil => rfl
    | cons y ys ih2 =>
      simp only [List.orderedInsert, dataLe_iff, ih2]

theorem std_sort_sorted (l : List String) : List.Sorted (· ≤ ·) (std_sort l) := by
  rw [std_sort_eq]; exact List.sorted_insertionSort _ l

theorem std_sort_perm (l : List String) : (std_sort l).Perm l := by
  rw [std_sort_eq]; exact List.perm_insertionSort _ l

theorem mem_std_sort (x : String) (l : List String) : x ∈ std_sort l ↔ x ∈ l :=
  (std_sort_perm l).mem_iff

theorem std_sort_congr {l1 l2 : List String} (h : l1.Perm l2) :
    std_sort l1 = std_sort l2 :=
  List.eq_of_perm_of_sorted (((std_sort_perm l1).trans h).trans (std_sort_perm l2).symm)
    (std_sort_sorted l1) (std_sort_sorted l2)

/-- The specification of `std::sort` determines its result: any sorted
rearrangement of `files` is `std_sort files`. -/
theorem std_sort_unique (files sorted : List String) (hperm : sorted.Perm files)
    (hsorted : List.Sorted (· ≤ ·) sorted) : sorted = std_sort files :=
  List.eq_of_perm_of_sorted (hperm.trans (std_sort_perm files).symm) hsorted
    (std_sort_sorted files)

/-! ## Lemmas on the path splitting -/

theorem splitPosix_of_no_slash (pattern : String) (h : '/' ∉ pattern.data) :
    splitPosix pattern = (".", pattern) := by
  have hnone : find_last_of pattern "/" = none := by
    apply (findLastOfChars_eq_none_iff _ _).mpr
    intro x hx hmem
    have hx2 : x = '/' := by simpa using hmem
    exact h (hx2 ▸ hx)
  simp [splitPosix, hnone]

theorem splitPosix_append (d f : String) (hf : '/' ∉ f.data) :
    splitPosix (d ++ "/" ++ f) = (d, f) := by
  have hdata : (d ++ "/" ++ f).data = d.data ++ '/' :: f.data := by
    simp [String.data_append]
  have hsome : find_last_of (d ++ "/" ++ f) "/" = some d.data.length := by
    unfold find_last_of
    rw [hdata]
    apply findLastOfChars_append
    · simp
    · intro x hx hmem
      have hx2 : x = '/' := by simpa using hmem
      exact hf (hx2 ▸ hx)
  simp only [splitPosix, hsome, substr, substrFrom, hdata]
  have h1 : List.take d.data.length (List.drop 0 (d.data ++ '/' :: f.data)) = d.data := by
    simp
  have h2 : List.drop (d.data.length + 1) (d.data ++ '/' :: f.data) = f.data := by
    rw [List.drop_append_eq_append_drop]
    simp
  rw [h1, h2]

theorem splitPosix_of_slash (pattern : String) (h : '/' ∈ pattern.data) :
    (splitPosix pattern).1 ++ "/" ++ (splitPosix pattern).2 = pattern ∧
      '/' ∉ (splitPosix pattern).2.data := by
  cases hfind : find_last_of pattern "/" with
  | none =>
    have := (findLastOfChars_eq_none_iff _ _).mp hfind '/' h
    simp at this
  | some i =>
    obtain ⟨c, hc, hl, hrest⟩ := findLastOfChars_some _ _ i hfind
    have hc2 : c = '/' := by simpa using hc
    subst hc2
    simp only [splitPosix, hfind, substr, substrFrom]
    constructor
    · apply String.ext
      simp only [String.data_append, List.drop_zero]
      simpa using hl.symm
    · intro hmem
      exact hrest '/' hmem (by simp)

/-! ## Lemmas on the two loops and on the function -/

theorem readLoop_files (os : Posix) (dir_path filename_pattern : String) :
    ∀ (entries : List String) (r : Run),
      (readLoop os dir_path filename_pattern entries r).files =
        r.files ++ entries.filterMap (selectPosix os dir_path filename_pattern) := by
  intro entries
  induction entries with
  | nil => intro r; simp [readLoop]
  | cons d_name rest ih =>
    intro r
    unfold readLoop
    by_cases hdot : d_name = "." ∨ d_name = ".."
    · simp only [hdot, if_true, ih]
      simp [List.filterMap_cons, selectPosix, hdot]
    · by_cases hmatch : os.fnmatch (c_str filename_pattern) d_name = 0
      · cases hstat : os.stat (c_str (fullPathPosix dir_path d_name)) with
        | none =>
          simp only [hdot, if_false, hmatch, if_true, hstat, ih]
          simp [List.filterMap_cons, selectPosix, hdot, hmatch, hstat]
        | some st_mode =>
          cases hreg : S_ISREG st_mode <;>
            simp [List.filterMap_cons, selectPosix, hdot, hmatch, hstat, hreg, ih]
      · simp only [hdot, if_false, hmatch, ih]
        simp [List.filterMap_cons, selectPosix, hdot, hmatch]

theorem findLoop_files (dir_path : String) :
    ∀ (rest : List WIN32_FIND_DATAA) (find_data : WIN32_FIND_DATAA) (r : Run),
      (findLoop dir_path find_data rest r).files =
        r.files ++ (find_data :: rest).filterMap (selectWin32 dir_path) := by
  intro rest
  induction rest with
  | nil =>
    intro find_data r
    unfold findLoop
    by_cases hattr : find_data.dwFileAttributes &&& FILE_ATTRIBUTE_DIRECTORY = 0
    · simp [selectWin32, hattr]
    · simp [selectWin32, hattr]
  | cons next rest1 ih =>
    intro find_data r
    unfold findLoop
    by_cases hattr : find_data.dwFileAttributes &&& FILE_ATTRIBUTE_DIRECTORY = 0
    · simp only [hattr, if_true, ih]
      simp [List.filterMap_cons, selectWin32, hattr]
    · simp only [hattr, if_false, ih]
      simp [List.filterMap_cons, selectWin32, hattr]

theorem run_literal (target : Platform) (pattern : String) (h : ¬ HasWildcard pattern) :
    ExpandGlobPatternRun target pattern = ⟨[pattern], []⟩ := by
  unfold ExpandGlobPatternRun
  rw [if_pos ((literal_test_iff pattern).mpr h)]

theorem files_posix (os : Posix) (pattern : String) (h : HasWildcard pattern) :
    ExpandGlobPattern (Platform.posix os) pattern =
      match os.opendir (c_str (splitPosix pattern).1) with
      | none => []
      | some entries =>
        std_sort (entries.filterMap
          (selectPosix os (splitPosix pattern).1 (splitPosix pattern).2)) := by
  unfold ExpandGlobPattern ExpandGlobPatternRun
  rw [if_neg (fun hl => (literal_test_iff pattern).mp hl h)]
  cases hdir : os.opendir (c_str (splitPosix pattern).1) with
  | none => simp [hdir]
  | some entries => simp [hdir, readLoop_files]

theorem files_win32 (os : Win32) (pattern : String) (h : HasWildcard pattern) :
    ExpandGlobPattern (Platform.win32 os) pattern =
      match os.FindFirstFileA (c_str (searchPathWin32 pattern)) with
      | none => []
      | some found =>
        std_sort ((found.1 :: found.2).filterMap (selectWin32 (dirPathWin32 pattern))) := by
  unfold ExpandGlobPattern ExpandGlobPatternRun
  rw [if_neg (fun hl => (literal_test_iff pattern).mp hl h)]
  cases hfind : os.FindFirstFileA (c_str (searchPathWin32 pattern)) with
  | none => simp [hfind, std_sort]
  | some found =>
    obtain ⟨find_data, rest⟩ := found
    simp [hfind, findLoop_files]

theorem selectPosix_eq_some (os : Posix) (dir_path filename_pattern d_name x : String) :
    selectPosix os dir_path filename_pattern d_name = some x ↔
      d_name ≠ "." ∧ d_name ≠ ".." ∧ os.fnmatch (c_str filename_pattern) d_name = 0 ∧
        x = fullPathPosix dir_path d_name ∧
          ∃ st_mode, os.stat (c_str x) = some st_mode ∧ S_ISREG st_mode = true := by
  unfold selectPosix
  constructor
  · intro h
    split at h
    · exact Option.noConfusion h
    · rename_i hdot
      split at h
      · rename_i hmatch
        split at h
        · rename_i st_mode hstat
          split at h
          · rename_i hreg
            have hx : fullPathPosix dir_path d_name = x := by simpa using h
            subst hx
            exact ⟨(not_or.mp hdot).1, (not_or.mp hdot).2, hmatch, rfl, st_mode, hstat, hreg⟩
          · exact Option.noConfusion h
        · exact Option.noConfusion h
      · exact Option.noConfusion h
  · rintro ⟨h1, h2, h3, hx, st_mode, hstat, hreg⟩
    subst hx
    have hdot : ¬ (d_name = "." ∨ d_name = "..") := not_or.mpr ⟨h1, h2⟩
    simp [hdot, h3, hstat, hreg]

theorem S_ISDIR_of_S_ISREG (st_mode : Nat) (h : S_ISREG st_mode = true) :
    S_ISDIR st_mode = false := by
  unfold S_ISREG at h
  unfold S_ISDIR
  have h1 : st_mode &&& S_IFMT = S_IFREG := by simpa using h
  rw [h1]
  decide

theorem basename_fullPathPosix (dir_path d_name : String) (h : '/' ∉ d_name.data) :
    (splitPosix (fullPathPosix dir_path d_name)).2 = d_name := by
  unfold fullPathPosix
  by_cases hd : dir_path = "."
  · rw [if_pos hd, splitPosix_of_no_slash d_name h]
  · rw [if_neg hd, splitPosix_append dir_path d_name h]

theorem selectPosix_congr (os1 os2 : Posix) (hstat : os1.stat = os2.stat)
    (hfnmatch : os1.fnmatch = os2.fnmatch) : selectPosix os1 = selectPosix os2 := by
  funext dir_path filename_pattern d_name
  simp [selectPosix, hstat, hfnmatch]

theorem replaceChar_not_mem (a b : Char) (hab : a ≠ b) (s : String) :
    a ∉ (replaceChar a b s).data := by
  unfold replaceChar
  simp only [List.mem_map, not_exists, not_and]
  intro c _ hc
  by_cases h : c = a
  · rw [if_pos h] at hc
    exact hab hc.symm
  · rw [if_neg h] at hc
    exact h hc

theorem readLoop_calls (os : Posix) (dir_path filename_pattern : String) :
    ∀ (entries : List String) (r : Run),
      ∃ more, (readLoop os dir_path filename_pattern entries r).calls = r.calls ++ more := by
  intro entries
  induction entries with
  | nil => intro r; exact ⟨[Call.readdir], by simp [readLoop]⟩
  | cons d_name rest ih =>
    intro r
    unfold readLoop
    simp only
    split
    · obtain ⟨more, h⟩ := ih ⟨r.files, r.calls ++ [Call.readdir]⟩
      exact ⟨Call.readdir :: more, by rw [h]; simp⟩
    · split
      · split
        · split
          · obtain ⟨more, h⟩ := ih ⟨r.files ++ [fullPathPosix dir_path d_name],
              r.calls ++ [Call.readdir] ++
                [Call.stat (c_str (fullPathPosix dir_path d_name))]⟩
            exact ⟨[Call.readdir] ++ ([Call.stat (c_str (fullPathPosix dir_path d_name))] ++ more),
              by rw [h]; simp only [List.append_assoc]⟩
          · obtain ⟨more, h⟩ := ih ⟨r.files,
              r.calls ++ [Call.readdir] ++
                [Call.stat (c_str (fullPathPosix dir_path d_name))]⟩
            exact ⟨[Call.readdir] ++ ([Call.stat (c_str (fullPathPosix dir_path d_name))] ++ more),
              by rw [h]; simp only [List.append_assoc]⟩
        · obtain ⟨more, h⟩ := ih ⟨r.files,
            r.calls ++ [Call.readdir] ++
              [Call.stat (c_str (fullPathPosix dir_path d_name))]⟩
          exact ⟨[Call.readdir] ++ ([Call.stat (c_str (fullPathPosix dir_path d_name))] ++ more),
              by rw [h]; simp only [List.append_assoc]⟩
      · obtain ⟨more, h⟩ := ih ⟨r.files, r.calls ++ [Call.readdir]⟩
        exact ⟨Call.readdir :: more, by rw [h]; simp⟩

theorem findLoop_calls (dir_path : String) :
    ∀ (rest : List WIN32_FIND_DATAA) (find_data : WIN32_FIND_DATAA) (r : Run),
      ∃ more, (findLoop dir_path find_data rest r).calls = r.calls ++ more := by
  intro rest
  induction rest with
  | nil =>
    intro find_data r
    unfold findLoop
    refine ⟨[Call.FindNextFileA], ?_⟩
    simp only
    split <;> rfl
  | cons next rest1 ih =>
    intro find_data r
    unfold findLoop
    simp only
    split
    · obtain ⟨more, h⟩ := ih next
        ⟨r.files ++ [fullPathWin32 dir_path find_data.cFileName],
          r.calls ++ [Call.FindNextFileA]⟩
      exact ⟨[Call.FindNextFileA] ++ more, by rw [h]; simp only [List.append_assoc]⟩
    · obtain ⟨more, h⟩ := ih next ⟨r.files, r.calls ++ [Call.FindNextFileA]⟩
      exact ⟨[Call.FindNextFileA] ++ more, by rw [h]; simp only [List.append_assoc]⟩

theorem run_first_call (target : Platform) (pattern : String) (h : HasWildcard pattern) :
    ∃ more, (ExpandGlobPatternRun target pattern).calls =
      (match target with
        | Platform.win32 _ => Call.FindFirstFileA (c_str (searchPathWin32 pattern))
        | Platform.posix _ => Call.opendir (c_str (splitPosix pattern).1)) :: more := by
  unfold ExpandGlobPatternRun
  rw [if_neg (fun hl => (literal_test_iff pattern).mp hl h)]
  cases target with
  | win32 os =>
    simp only
    cases hfind : os.FindFirstFileA (c_str (searchPathWin32 pattern)) with
    | none => exact ⟨[], rfl⟩
    | some found =>
      obtain ⟨find_data, rest⟩ := found
      obtain ⟨more, hm⟩ := findLoop_calls (dirPathWin32 pattern) rest find_data
        ⟨[], [Call.FindFirstFileA (c_str (searchPathWin32 pattern))]⟩
      exact ⟨more ++ [Call.FindClose], by simp only [hm]; simp⟩
  | posix os =>
    simp only
    cases hdir : os.opendir (c_str (splitPosix pattern).1) with
    | none => exact ⟨[], rfl⟩
    | some entries =>
      obtain ⟨more, hm⟩ := readLoop_calls os (splitPosix pattern).1 (splitPosix pattern).2
        entries ⟨[], [Call.opendir (c_str (splitPosix pattern).1)]⟩
      exact ⟨more ++ [Call.closedir], by simp only [hm]; simp⟩

theorem scenarioA_sameContents :
    SameContents (Platform.posix scenarioA) (Platform.posix scenarioAReordered) := by
  refine ⟨rfl, rfl, fun path => ?_⟩
  by_cases h1 : path = "data"
  · subst h1
    show List.Perm _ _
    decide
  · by_cases h2 : path = "data/archive"
    · subst h2
      show List.Perm _ _
      decide
    · simp [scenarioA, scenarioAReordered, h1, h2, SameListing]

theorem mem_result_posix (os : Posix) (P : String) (hw : HasWildcard P) (x : String)
    (hx : x ∈ ExpandGlobPattern (Platform.posix os) P) :
    ∃ entries d_name, os.opendir (c_str (splitPosix P).1) = some entries ∧
      d_name ∈ entries ∧ x = fullPathPosix (splitPosix P).1 d_name := by
  rw [files_posix os P hw] at hx
  cases hdir : os.opendir (c_str (splitPosix P).1) with
  | none => simp [hdir] at hx
  | some entries =>
    simp only [hdir, mem_std_sort, List.mem_filterMap] at hx
    obtain ⟨d_name, hmem, hsel⟩ := hx
    exact ⟨entries, d_name, rfl, hmem, ((selectPosix_eq_some _ _ _ _ _).mp hsel).2.2.2.1⟩

theorem run_posix_congr (os : Posix) (p q : String) (hp : HasWildcard p)
    (hq : HasWildcard q) (h : splitPosix p = splitPosix q) :
    ExpandGlobPatternRun (Platform.posix os) p = ExpandGlobPatternRun (Platform.posix os) q := by
  unfold ExpandGlobPatternRun
  rw [if_neg (fun hl => (literal_test_iff p).mp hl hp),
    if_neg (fun hl => (literal_test_iff q).mp hl hq), h]

theorem hasWildcard_dot_slash (p : String) (h : HasWildcard p) : HasWildcard ("./" ++ p) := by
  unfold HasWildcard at h ⊢
  simp only [String.data_append, List.mem_append]
  rcases h with h | h | h
  · exact Or.inl (Or.inr h)
  · exact Or.inr (Or.inl (Or.inr h))
  · exact Or.inr (Or.inr (Or.inr h))

theorem splitPosix_dot_slash (p : String) (hs : '/' ∉ p.data) :
    splitPosix ("./" ++ p) = (".", p) :=
  splitPosix_append "." p hs

theorem splitWin32_of_no_separator (pattern : String) (hs : '/' ∉ pattern.data)
    (hb : '\\' ∉ pattern.data) : splitWin32 pattern = (".", pattern) := by
  have hnone : find_last_of pattern "/\\" = none := by
    apply (findLastOfChars_eq_none_iff _ _).mpr
    intro x hx hmem
    have hx2 : x = '/' ∨ x = '\\' := by simpa using hmem
    rcases hx2 with e | e
    · exact hs (e ▸ hx)
    · exact hb (e ▸ hx)
  simp [splitWin32, hnone]

theorem splitWin32_dot_slash (p : String) (hs : '/' ∉ p.data) (hb : '\\' ∉ p.data) :
    splitWin32 ("./" ++ p) = (".", p) := by
  have hdata : ("./" ++ p).data = ['.'] ++ '/' :: p.data := by
    simp [String.data_append]
  have hsome : find_last_of ("./" ++ p) "/\\" = some 1 := by
    unfold find_last_of
    rw [hdata]
    apply findLastOfChars_append
    · decide
    · intro x hx hmem
      have hx2 : x = '/' ∨ x = '\\' := by simpa using hmem
      rcases hx2 with e | e
      · exact hs (e ▸ hx)
      · exact hb (e ▸ hx)
  simp only [splitWin32, hsome, substr, substrFrom, hdata]
  rfl

theorem run_win32_congr (os : Win32) (p q : String) (hp : HasWildcard p)
    (hq : HasWildcard q) (h : splitWin32 p = splitWin32 q) :
    ExpandGlobPatternRun (Platform.win32 os) p = ExpandGlobPatternRun (Platform.win32 os) q := by
  unfold ExpandGlobPatternRun searchPathWin32 dirPathWin32
  rw [if_neg (fun hl => (literal_test_iff p).mp hl hp),
    if_neg (fun hl => (literal_test_iff q).mp hl hq), h]

theorem mem_result_win32 (os : Win32) (P : String) (hw : HasWildcard P) (x : String)
    (hx : x ∈ ExpandGlobPattern (Platform.win32 os) P) :
    ∃ found find_data, os.FindFirstFileA (c_str (searchPathWin32 P)) = some found ∧
      find_data ∈ found.1 :: found.2 ∧
      x = fullPathWin32 (dirPathWin32 P) find_data.cFileName := by
  rw [files_win32 os P hw] at hx
  cases hfind : os.FindFirstFileA (c_str (searchPathWin32 P)) with
  | none => simp [hfind] at hx
  | some found =>
    simp only [hfind, mem_std_sort, List.mem_filterMap] at hx
    obtain ⟨find_data, hmem, hsel⟩ := hx
    unfold selectWin32 at hsel
    split at hsel
    · exact ⟨found, find_data, rfl, hmem, by simpa using hsel.symm⟩
    · exact Option.noConfusion hsel

theorem replaceChar_append (a b : Char) (s t : String) :
    replaceChar a b (s ++ t) = replaceChar a b s ++ replaceChar a b t := by
  apply String.ext
  simp [replaceChar, String.data_append]

theorem replaceChar_of_not_mem (a b : Char) (s : String) (h : a ∉ s.data) :
    replaceChar a b s = s := by
  apply String.ext
  unfold replaceChar
  simp only
  conv_rhs => rw [← List.map_id s.data]
  apply List.map_congr_left
  intro c hc
  have hne : ¬ c = a := fun e => h (e ▸ hc)
  simp [hne]

theorem not_dot_slash_of_no_slash (x : String) (h : '/' ∉ x.data) (t : String) :
    x ≠ "./" ++ t := by
  intro ht
  apply h
  rw [ht]
  simp [String.data_append]

/-! ## The claims -/

/-- C1: a pattern that contains none of `*`, `?`, `[` is returned unchanged as the
one-element vector `[P]`, on either platform and whatever the operating-system
functions would answer; the function makes no operating-system call at all (no
directory is opened, no status check is made). -/
theorem C1_literal_pattern_is_returned_unchanged (target : Platform) (P : String)
    (hstar : '*' ∉ P.data) (hquestion : '?' ∉ P.data) (hbracket : '[' ∉ P.data) :
    ExpandGlobPattern target P = [P] ∧ (ExpandGlobPattern target P).length = 1 ∧
      (ExpandGlobPatternRun target P).calls = [] := by
  have hlit : ¬ HasWildcard P := by
    rintro (h | h | h)
    · exact hstar h
    · exact hquestion h
    · exact hbracket h
  simp [ExpandGlobPattern, run_literal target P hlit]

/-- Scenario C of the spec: `README.md` is returned although the file system of
scenario B has no such file. -/
theorem C1_literal_pattern_is_returned_unchanged_witness :
    scenarioB.stat "README.md" = none ∧
      ExpandGlobPattern (Platform.posix scenarioB) "README.md" = ["README.md"] ∧
      (ExpandGlobPattern (Platform.posix scenarioB) "README.md").length = 1 ∧
      (ExpandGlobPatternRun (Platform.posix scenarioB) "README.md").calls = [] :=
  ⟨by decide,
    C1_literal_pattern_is_returned_unchanged (Platform.posix scenarioB) "README.md"
      (by decide) (by decide) (by decide)⟩

/-- C2: on POSIX, every path returned for a wildcard pattern is the full path built
from an entry `d_name` that `readdir` returned for `DirectoryPath`; `stat` on that
path succeeds and reports a regular file, hence not a directory; `fnmatch` accepts
`d_name` for `FilenamePattern`; and `d_name` is the text after the last `/` of the
returned path (directory entries contain no `/`). -/
theorem C2_results_are_matching_regular_files (os : Posix) (P : String)
    (hw : HasWildcard P) (x : String) (hx : x ∈ ExpandGlobPattern (Platform.posix os) P) :
    ∃ entries d_name st_mode,
      os.opendir (c_str (splitPosix P).1) = some entries ∧ d_name ∈ entries ∧
      d_name ≠ "." ∧ d_name ≠ ".." ∧
      x = fullPathPosix (splitPosix P).1 d_name ∧
      os.stat (c_str x) = some st_mode ∧ S_ISREG st_mode = true ∧
      S_ISDIR st_mode = false ∧
      os.fnmatch (c_str (splitPosix P).2) d_name = 0 ∧
      ('/' ∉ d_name.data → (splitPosix x).2 = d_name) := by
  rw [files_posix os P hw] at hx
  cases hdir : os.opendir (c_str (splitPosix P).1) with
  | none => simp [hdir] at hx
  | some entries =>
    simp only [hdir, mem_std_sort, List.mem_filterMap] at hx
    obtain ⟨d_name, hmem, hsel⟩ := hx
    obtain ⟨h1, h2, h3, h4, st_mode, h5, h6⟩ := (selectPosix_eq_some _ _ _ _ _).mp hsel
    exact ⟨entries, d_name, st_mode, rfl, hmem, h1, h2, h4, h5, h6,
      S_ISDIR_of_S_ISREG st_mode h6, h3,
      fun hs => h4 ▸ basename_fullPathPosix _ _ hs⟩

/-- Scenario A of the spec: `data/a.csv` is returned for `data/*.csv`, and it
comes from the entry `a.csv` of `data/`. -/
theorem C2_results_are_matching_regular_files_witness :
    HasWildcard "data/*.csv" ∧
      "data/a.csv" ∈ ExpandGlobPattern (Platform.posix scenarioA) "data/*.csv" ∧
      ∃ entries d_name st_mode,
        scenarioA.opendir (c_str (splitPosix "data/*.csv").1) = some entries ∧
        d_name ∈ entries ∧ d_name ≠ "." ∧ d_name ≠ ".." ∧
        "data/a.csv" = fullPathPosix (splitPosix "data/*.csv").1 d_name ∧
        scenarioA.stat (c_str "data/a.csv") = some st_mode ∧ S_ISREG st_mode = true ∧
        S_ISDIR st_mode = false ∧
        scenarioA.fnmatch (c_str (splitPosix "data/*.csv").2) d_name = 0 ∧
        ('/' ∉ d_name.data → (splitPosix "data/a.csv").2 = d_name) :=
  ⟨by decide, by decide,
    C2_results_are_matching_regular_files scenarioA "data/*.csv" (by decide)
      "data/a.csv" (by decide)⟩

/-- C3: on POSIX, when `DirectoryPath` can be opened, every entry that `readdir`
returns for it, other than `.` and `..`, that `fnmatch` accepts for
`FilenamePattern` and that `stat` reports as a regular file, is returned as its
full path; nothing is asked about a leading `.` of the name.  Scenario A of the
spec gives exactly `data/a.csv` and `data/b.csv`, and in scenario E the hidden
file `.env` is returned for the pattern `*`. -/
theorem C3_matching_regular_files_are_returned :
    (∀ (os : Posix) (P : String) (entries : List String) (d_name : String) (st_mode : Nat),
        HasWildcard P →
        os.opendir (c_str (splitPosix P).1) = some entries →
        d_name ∈ entries → d_name ≠ "." → d_name ≠ ".." →
        os.fnmatch (c_str (splitPosix P).2) d_name = 0 →
        os.stat (c_str (fullPathPosix (splitPosix P).1 d_name)) = some st_mode →
        S_ISREG st_mode = true →
        fullPathPosix (splitPosix P).1 d_name ∈ ExpandGlobPattern (Platform.posix os) P) ∧
      ExpandGlobPattern (Platform.posix scenarioA) "data/*.csv" =
        ["data/a.csv", "data/b.csv"] ∧
      ".env" ∈ ExpandGlobPattern (Platform.posix scenarioE) "*" := by
  refine ⟨?_, by decide, by decide⟩
  intro os P entries d_name st_mode hw hdir hmem h1 h2 hmatch hstat hreg
  rw [files_posix os P hw]
  simp only [hdir, mem_std_sort, List.mem_filterMap]
  exact ⟨d_name, hmem,
    (selectPosix_eq_some _ _ _ _ _).mpr ⟨h1, h2, hmatch, rfl, st_mode, hstat, hreg⟩⟩

/-- Scenario E of the spec, through the general statement of C3: the entry `.env`
of the current directory is returned for `*`. -/
theorem C3_matching_regular_files_are_returned_witness :
    ".env" = fullPathPosix (splitPosix "*").1 ".env" ∧
      fullPathPosix (splitPosix "*").1 ".env" ∈
        ExpandGlobPattern (Platform.posix scenarioE) "*" :=
  ⟨by decide,
    C3_matching_regular_files_are_returned.1 scenarioE "*"
      [".", "..", "main.fit", ".git", ".env"] ".env" 0o100644
      (by decide) (by decide) (by decide) (by decide) (by decide) (by decide) (by decide)
      (by decide)⟩

/-- C4: on either platform, for every pattern and whatever the operating-system
functions answer, the returned vector is sorted in ascending order of the path
strings; this includes the two paths that return before the sort step (literal
pattern, directory that cannot be opened), whose results have one and no
element. -/
theorem C4_result_is_sorted (target : Platform) (P : String) :
    List.Sorted (fun a b : String => a ≤ b) (ExpandGlobPattern target P) := by
  by_cases hw : HasWildcard P
  · cases target with
    | win32 os =>
      rw [files_win32 os P hw]
      cases os.FindFirstFileA (c_str (searchPathWin32 P)) with
      | none => exact List.sorted_nil
      | some found => exact std_sort_sorted _
    | posix os =>
      rw [files_posix os P hw]
      cases os.opendir (c_str (splitPosix P).1) with
      | none => exact List.sorted_nil
      | some entries => exact std_sort_sorted _
  · simp [ExpandGlobPattern, run_literal target P hw]

/-- C5: when the directory of a wildcard pattern cannot be opened, the function
returns the empty vector as an ordinary result and makes no further call: on
POSIX when `opendir` fails on `DirectoryPath`, on Windows when `FindFirstFileA`
fails on the search path (which it does for a directory that does not exist). -/
theorem C5_unopenable_directory_gives_empty_result (target : Platform) (P : String)
    (hw : HasWildcard P)
    (hfail : match target with
      | Platform.win32 os => os.FindFirstFileA (c_str (searchPathWin32 P)) = none
      | Platform.posix os => os.opendir (c_str (splitPosix P).1) = none) :
    ExpandGlobPattern target P = [] ∧
      (ExpandGlobPatternRun target P).calls =
        [match target with
          | Platform.win32 _ => Call.FindFirstFileA (c_str (searchPathWin32 P))
          | Platform.posix _ => Call.opendir (c_str (splitPosix P).1)] := by
  have hlit := fun hl => (literal_test_iff P).mp hl hw
  unfold ExpandGlobPattern ExpandGlobPatternRun
  rw [if_neg hlit]
  cases target with
  | win32 os =>
    simp only at hfail
    simp [hfail, std_sort]
  | posix os =>
    simp only at hfail
    simp [hfail]

/-- Scenario B of the spec: there is no `missing_dir/`, and `missing_dir/*.txt`
gives the empty vector, on POSIX after the failed `opendir` and on Windows after
the failed `FindFirstFileA`. -/
theorem C5_unopenable_directory_gives_empty_result_witness :
    HasWildcard "missing_dir/*.txt" ∧
      scenarioB.opendir (c_str (splitPosix "missing_dir/*.txt").1) = none ∧
      (ExpandGlobPattern (Platform.posix scenarioB) "missing_dir/*.txt" = [] ∧
        (ExpandGlobPatternRun (Platform.posix scenarioB) "missing_dir/*.txt").calls =
          [Call.opendir (c_str (splitPosix "missing_dir/*.txt").1)]) ∧
      scenarioWin.FindFirstFileA (c_str (searchPathWin32 "missing_dir/*.txt")) = none ∧
      (ExpandGlobPattern (Platform.win32 scenarioWin) "missing_dir/*.txt" = [] ∧
        (ExpandGlobPatternRun (Platform.win32 scenarioWin) "missing_dir/*.txt").calls =
          [Call.FindFirstFileA (c_str (searchPathWin32 "missing_dir/*.txt"))]) :=
  ⟨by decide, by decide,
    C5_unopenable_directory_gives_empty_result (Platform.posix scenarioB)
      "missing_dir/*.txt" (by decide) (by decide),
    by decide,
    C5_unopenable_directory_gives_empty_result (Platform.win32 scenarioWin)
      "missing_dir/*.txt" (by decide) (by decide)⟩

/-- C6: the result depends on the contents of the file system only, not on the
order in which a directory is enumerated: two targets of the same platform with
the same status for every path, the same matcher and, for every directory, the
same entries in possibly different orders give the same vector for every
pattern.  (Two calls on one and the same state are the case of equal targets.) -/
theorem C6_result_independent_of_enumeration_order (t1 t2 : Platform)
    (h : SameContents t1 t2) (P : String) :
    ExpandGlobPattern t1 P = ExpandGlobPattern t2 P := by
  by_cases hw : HasWildcard P
  · cases t1 with
    | win32 os1 =>
      cases t2 with
      | posix os2 => exact absurd h id
      | win32 os2 =>
        rw [files_win32 os1 P hw, files_win32 os2 P hw]
        have hp := h (c_str (searchPathWin32 P))
        cases h1 : os1.FindFirstFileA (c_str (searchPathWin32 P)) with
        | none =>
          cases h2 : os2.FindFirstFileA (c_str (searchPathWin32 P)) with
          | none => rfl
          | some found2 => rw [h1, h2] at hp; exact absurd hp id
        | some found1 =>
          cases h2 : os2.FindFirstFileA (c_str (searchPathWin32 P)) with
          | none => rw [h1, h2] at hp; exact absurd hp id
          | some found2 =>
            rw [h1, h2] at hp
            exact std_sort_congr (List.Perm.filterMap _ hp)
    | posix os1 =>
      cases t2 with
      | win32 os2 => exact absurd h id
      | posix os2 =>
        obtain ⟨hstat, hfnmatch, hlist⟩ := h
        rw [files_posix os1 P hw, files_posix os2 P hw,
          selectPosix_congr os1 os2 hstat hfnmatch]
        have hp := hlist (c_str (splitPosix P).1)
        cases h1 : os1.opendir (c_str (splitPosix P).1) with
        | none =>
          cases h2 : os2.opendir (c_str (splitPosix P).1) with
          | none => rfl
          | some l2 => rw [h1, h2] at hp; exact absurd hp id
        | some l1 =>
          cases h2 : os2.opendir (c_str (splitPosix P).1) with
          | none => rw [h1, h2] at hp; exact absurd hp id
          | some l2 =>
            rw [h1, h2] at hp
            exact std_sort_congr (List.Perm.filterMap _ hp)
  · simp [ExpandGlobPattern, run_literal _ P hw]

/-- Scenario A of the spec with `data/` enumerated in two different orders: the
two results are the same vector. -/
theorem C6_result_independent_of_enumeration_order_witness :
    scenarioA.opendir "data" ≠ scenarioAReordered.opendir "data" ∧
      ExpandGlobPattern (Platform.posix scenarioA) "data/*.csv" =
        ExpandGlobPattern (Platform.posix scenarioAReordered) "data/*.csv" :=
  ⟨by decide,
    C6_result_independent_of_enumeration_order (Platform.posix scenarioA)
      (Platform.posix scenarioAReordered) scenarioA_sameContents "data/*.csv"⟩

/-- C7, as stated, fails on the Windows branch: the literal pattern `dir\a.fit`
is returned unchanged, backslash included. -/
theorem C7_literal_pattern_keeps_its_backslashes :
    ¬ (∀ (os : Win32) (P x : String),
        x ∈ ExpandGlobPattern (Platform.win32 os) P → '\\' ∉ x.data) :=
  fun h => h scenarioWin "dir\\a.fit" "dir\\a.fit" (by decide) (by decide)

/-- C7, amended: on the Windows branch no path returned for a wildcard pattern
contains a backslash; a literal pattern is returned unchanged, so its result is
free of backslashes exactly when the pattern is. -/
theorem C7_wildcard_results_have_no_backslash (os : Win32) (P : String) :
    (HasWildcard P → ∀ x ∈ ExpandGlobPattern (Platform.win32 os) P, '\\' ∉ x.data) ∧
      (¬ HasWildcard P → ExpandGlobPattern (Platform.win32 os) P = [P]) := by
  constructor
  · intro hw x hx
    rw [files_win32 os P hw] at hx
    cases hfind : os.FindFirstFileA (c_str (searchPathWin32 P)) with
    | none => simp [hfind] at hx
    | some found =>
      simp only [hfind, mem_std_sort, List.mem_filterMap] at hx
      obtain ⟨find_data, -, hsel⟩ := hx
      unfold selectWin32 at hsel
      split at hsel
      · have hx2 : fullPathWin32 (dirPathWin32 P) find_data.cFileName = x := by
          simpa using hsel
        rw [← hx2]
        exact replaceChar_not_mem _ _ (by decide) _
      · exact Option.noConfusion hsel
  · intro hw
    simp [ExpandGlobPattern, run_literal _ P hw]

/-- The Windows scenario: `dir/*.fit` gives `/`-separated paths although the
directory is searched as `dir\*.fit`. -/
theorem C7_wildcard_results_have_no_backslash_witness :
    HasWildcard "dir/*.fit" ∧
      ExpandGlobPattern (Platform.win32 scenarioWin) "dir/*.fit" =
        ["dir/a.fit", "dir/b.fit"] ∧
      '\\' ∉ ("dir/a.fit" : String).data :=
  ⟨by decide, by decide,
    (C7_wildcard_results_have_no_backslash scenarioWin "dir/*.fit").1 (by decide)
      "dir/a.fit" (by decide)⟩

/-- C8: path splitting on POSIX.  For a pattern that contains `/`, `DirectoryPath`
followed by `/` and `FilenamePattern` is the pattern and `FilenamePattern`
contains no `/`, so the split is at the last `/`: whenever the pattern is
`d ++ "/" ++ f` with no `/` in `f`, the split is `(d, f)`.  For a pattern without
`/`, `DirectoryPath` is `.` and `FilenamePattern` is the whole pattern. -/
theorem C8_path_splitting (pattern : String) :
    ('/' ∈ pattern.data →
        (splitPosix pattern).1 ++ "/" ++ (splitPosix pattern).2 = pattern ∧
          '/' ∉ (splitPosix pattern).2.data) ∧
      (∀ d f : String, pattern = d ++ "/" ++ f → '/' ∉ f.data →
        splitPosix pattern = (d, f)) ∧
      ('/' ∉ pattern.data → splitPosix pattern = (".", pattern)) :=
  ⟨splitPosix_of_slash pattern,
    fun d f hp hf => hp ▸ splitPosix_append d f hf,
    splitPosix_of_no_slash pattern⟩

/-- A pattern with two separators is split at the last one. -/
theorem C8_path_splitting_witness :
    '/' ∈ ("a/b/c*.fit" : String).data ∧ splitPosix "a/b/c*.fit" = ("a/b", "c*.fit") ∧
      (splitPosix "a/b/c*.fit").1 ++ "/" ++ (splitPosix "a/b/c*.fit").2 = "a/b/c*.fit" ∧
      '/' ∉ (splitPosix "a/b/c*.fit").2.data :=
  ⟨by decide, by decide, (C8_path_splitting "a/b/c*.fit").1 (by decide)⟩

/-- C9: wildcard detection.  On either platform the function goes on to scan a
directory (its first operating-system call opens `DirectoryPath`, respectively
starts the search for the search path) if and only if the pattern contains at
least one of `*`, `?`, `[`; otherwise it makes no call and returns `[P]`.  Nothing
is escaped: the lone `[` in the directory part of `dir[1/file.fit` is enough. -/
theorem C9_scan_mode_iff_wildcard (target : Platform) (P : String) :
    ((ExpandGlobPatternRun target P).calls ≠ [] ↔
        ('*' ∈ P.data ∨ '?' ∈ P.data ∨ '[' ∈ P.data)) ∧
      (('*' ∈ P.data ∨ '?' ∈ P.data ∨ '[' ∈ P.data) →
        (ExpandGlobPatternRun target P).calls.head? =
          some (match target with
            | Platform.win32 _ => Call.FindFirstFileA (c_str (searchPathWin32 P))
            | Platform.posix _ => Call.opendir (c_str (splitPosix P).1))) ∧
      (¬ ('*' ∈ P.data ∨ '?' ∈ P.data ∨ '[' ∈ P.data) →
        ExpandGlobPatternRun target P = ⟨[P], []⟩) ∧
      (ExpandGlobPatternRun target "dir[1/file.fit").calls.head? =
        some (match target with
          | Platform.win32 _ => Call.FindFirstFileA "dir[1\\file.fit"
          | Platform.posix _ => Call.opendir "dir[1") := by
  have hscan : ∀ Q : String, HasWildcard Q →
      (ExpandGlobPatternRun target Q).calls.head? =
        some (match target with
          | Platform.win32 _ => Call.FindFirstFileA (c_str (searchPathWin32 Q))
          | Platform.posix _ => Call.opendir (c_str (splitPosix Q).1)) := by
    intro Q hQ
    obtain ⟨more, hm⟩ := run_first_call target Q hQ
    rw [hm]
    rfl
  refine ⟨?_, hscan P, run_literal target P, ?_⟩
  · constructor
    · intro hcalls
      by_contra hw
      exact hcalls (by rw [run_literal target P hw])
    · intro hw hcalls
      have := hscan P hw
      rw [hcalls] at this
      exact Option.noConfusion this
  · rw [hscan "dir[1/file.fit" (by decide)]
    cases target <;> rfl

/-- C10, as stated for every platform, fails on the Windows branch, where `\\` is a
separator too: `sub\\*.fit` contains no `/`, yet `./sub\\*.fit` gives `./sub/a.fit`
and `sub\\*.fit` gives `sub/a.fit`. -/
theorem C10_backslash_is_a_separator_on_windows :
    ¬ (∀ (target : Platform) (p : String), HasWildcard p → '/' ∉ p.data →
        ExpandGlobPattern target ("./" ++ p) = ExpandGlobPattern target p) :=
  fun h =>
    absurd (h (Platform.win32 scenarioWinSub) "sub\\*.fit" (by decide) (by decide))
      (by decide)

/-- C10, amended.  On POSIX, for a wildcard pattern `p` without `/`, the call on
`"./" ++ p` does exactly what the call on `p` does (same calls, same result); each
returned path is an entry of the current directory as `readdir` returned it, with
nothing put in front (so it does not start with `./`, entry names having no `/`);
whereas for a pattern whose `DirectoryPath` `d` is not `.`, each returned path is
`d`, `/` and the entry name.  On Windows the same holds for a wildcard pattern `p`
with neither `/` nor `\\`: the two calls do the same, each returned path is the
file name that the enumeration stored, after the conversion of `\\` to `/` (the
name itself, not starting with `./`, when it holds no separator); whereas for a
`dir_path` `d` other than `.`, each returned path is `d`, `/` and the file name,
both after that conversion. -/
theorem C10_current_directory_is_not_written :
    (∀ (os : Posix) (p : String), HasWildcard p → '/' ∉ p.data →
      ExpandGlobPatternRun (Platform.posix os) ("./" ++ p) =
          ExpandGlobPatternRun (Platform.posix os) p ∧
        ExpandGlobPattern (Platform.posix os) ("./" ++ p) =
          ExpandGlobPattern (Platform.posix os) p ∧
        (∀ x ∈ ExpandGlobPattern (Platform.posix os) p,
          ∃ entries, os.opendir "." = some entries ∧ x ∈ entries ∧
            ((∀ n ∈ entries, '/' ∉ n.data) → ∀ t : String, x ≠ "./" ++ t)) ∧
        (∀ q : String, HasWildcard q → (splitPosix q).1 ≠ "." →
          ∀ x ∈ ExpandGlobPattern (Platform.posix os) q,
            ∃ entries d_name, os.opendir (c_str (splitPosix q).1) = some entries ∧
              d_name ∈ entries ∧ x = (splitPosix q).1 ++ "/" ++ d_name)) ∧
      (∀ (os : Win32) (p : String), HasWildcard p → '/' ∉ p.data → '\\' ∉ p.data →
        ExpandGlobPatternRun (Platform.win32 os) ("./" ++ p) =
            ExpandGlobPatternRun (Platform.win32 os) p ∧
          ExpandGlobPattern (Platform.win32 os) ("./" ++ p) =
            ExpandGlobPattern (Platform.win32 os) p ∧
          (∀ x ∈ ExpandGlobPattern (Platform.win32 os) p,
            ∃ found find_data, os.FindFirstFileA (c_str p) = some found ∧
              find_data ∈ found.1 :: found.2 ∧
              x = replaceChar '\\' '/' find_data.cFileName ∧
              ('/' ∉ find_data.cFileName.data → '\\' ∉ find_data.cFileName.data →
                x = find_data.cFileName ∧ ∀ t : String, x ≠ "./" ++ t)) ∧
          (∀ q : String, HasWildcard q → dirPathWin32 q ≠ "." →
            ∀ x ∈ ExpandGlobPattern (Platform.win32 os) q,
              ∃ found find_data,
                os.FindFirstFileA (c_str (searchPathWin32 q)) = some found ∧
                find_data ∈ found.1 :: found.2 ∧
                x = replaceChar '\\' '/' (dirPathWin32 q) ++ "/" ++
                  replaceChar '\\' '/' find_data.cFileName)) := by
  constructor
  · intro os p hw hs
    have hrun : ExpandGlobPatternRun (Platform.posix os) ("./" ++ p) =
        ExpandGlobPatternRun (Platform.posix os) p :=
      run_posix_congr os _ _ (hasWildcard_dot_slash p hw) hw
        ((splitPosix_dot_slash p hs).trans (splitPosix_of_no_slash p hs).symm)
    refine ⟨hrun, by unfold ExpandGlobPattern; rw [hrun], ?_, ?_⟩
    · intro x hx
      obtain ⟨entries, d_name, hdir, hmem, hxe⟩ := mem_result_posix os p hw x hx
      rw [splitPosix_of_no_slash p hs] at hdir hxe
      have hbare : x = d_name := by simpa [fullPathPosix] using hxe
      subst hbare
      exact ⟨entries, hdir, hmem,
        fun hnames t => not_dot_slash_of_no_slash x (hnames x hmem) t⟩
    · intro q hq hd x hx
      obtain ⟨entries, d_name, hdir, hmem, hxe⟩ := mem_result_posix os q hq x hx
      refine ⟨entries, d_name, hdir, hmem, ?_⟩
      rw [hxe, fullPathPosix, if_neg hd]
  · intro os p hw hs hb
    have hsplit := splitWin32_of_no_separator p hs hb
    have hrun : ExpandGlobPatternRun (Platform.win32 os) ("./" ++ p) =
        ExpandGlobPatternRun (Platform.win32 os) p :=
      run_win32_congr os _ _ (hasWildcard_dot_slash p hw) hw
        ((splitWin32_dot_slash p hs hb).trans hsplit.symm)
    refine ⟨hrun, by unfold ExpandGlobPattern; rw [hrun], ?_, ?_⟩
    · intro x hx
      obtain ⟨found, find_data, hfind, hmem, hxe⟩ := mem_result_win32 os p hw x hx
      have hdir : dirPathWin32 p = "." := by
        unfold dirPathWin32
        rw [hsplit]
        rfl
      have hsearch : searchPathWin32 p = p := by
        unfold searchPathWin32
        rw [if_pos hdir, hsplit]
      rw [hsearch] at hfind
      rw [hdir] at hxe
      have hx2 : x = replaceChar '\\' '/' find_data.cFileName := by
        simpa [fullPathWin32] using hxe
      refine ⟨found, find_data, hfind, hmem, hx2, ?_⟩
      intro hns hnb
      have hx3 : x = find_data.cFileName := by
        rw [hx2, replaceChar_of_not_mem _ _ _ hnb]
      exact ⟨hx3, fun t => not_dot_slash_of_no_slash x (hx3 ▸ hns) t⟩
    · intro q hq hd x hx
      obtain ⟨found, find_data, hfind, hmem, hxe⟩ := mem_result_win32 os q hq x hx
      refine ⟨found, find_data, hfind, hmem, ?_⟩
      rw [hxe, fullPathWin32, if_neg hd, replaceChar_append, replaceChar_append]
      rfl

/-- Scenario E of the spec on POSIX: `./*` and `*` give the same bare names; and
on Windows `./*.fit` and `*.fit` give the same bare name. -/
theorem C10_current_directory_is_not_written_witness :
    HasWildcard "*" ∧ '/' ∉ ("*" : String).data ∧
      ExpandGlobPattern (Platform.posix scenarioE) "./*" = [".env", "main.fit"] ∧
      ExpandGlobPattern (Platform.posix scenarioE) "*" = [".env", "main.fit"] ∧
      ExpandGlobPattern (Platform.posix scenarioE) ("./" ++ "*") =
        ExpandGlobPattern (Platform.posix scenarioE) "*" ∧
      HasWildcard "*.fit" ∧ '/' ∉ ("*.fit" : String).data ∧
      '\\' ∉ ("*.fit" : String).data ∧
      ExpandGlobPattern (Platform.win32 scenarioWinSub) "*.fit" = ["top.fit"] ∧
      ExpandGlobPattern (Platform.win32 scenarioWinSub) ("./" ++ "*.fit") =
        ExpandGlobPattern (Platform.win32 scenarioWinSub) "*.fit" :=
  ⟨by decide, by decide, by decide, by decide,
    (C10_current_directory_is_not_written.1 scenarioE "*" (by decide) (by decide)).2.1,
    by decide, by decide, by decide, by decide,
    (C10_current_directory_is_not_written.2 scenarioWinSub "*.fit" (by decide) (by decide)
      (by decide)).2.1⟩

/-- Scenario D of the spec: `?` matches exactly one character, so `20210.log` is
not returned for `logs/202?.log`. -/
theorem scenarioD_result :
    ExpandGlobPattern (Platform.posix scenarioD) "logs/202?.log" =
      ["logs/2021.log", "logs/2022.log"] := by
  decide

end duckdb
